import Mathlib

/-!
Shallow embedding of the HOOBS bridge server (`src/bridge/server.js`) and of
the CLI signal handler bundled with `src/Dockerfile`, together with theorems
checking the specification's claims about cache reconciliation, orphan
handling, external-accessory port allocation, advertised-address generation
and collision handling, remote configuration updates, configuration loading,
publish coordination, and termination handling.
-/

namespace HoobsBridge

/-! ### Cache reconciliation: `Server.configCachedPlatformAccessories` -/

/-- A cached platform accessory, as far as `configCachedPlatformAccessories`
inspects it: whether the deserialized object is a `Platform` instance
(`accessory instanceof Platform`), its `associatedPlugin` and
`associatedPlatform` fields, and its display name. -/
structure CachedAccessory where
  isPlatformInstance : Bool
  associatedPlugin : String
  associatedPlatform : String
  displayName : String
  deriving DecidableEq, Repr

/-- Lookup of the owning dynamic platform instance in
`this.activeDynamicPlugins`: first under the key
`associatedPlugin + "." + associatedPlatform`, then under the bare
`associatedPlatform`.  `active` is the list of keys present in the map. -/
def foundInstance (active : List String) (a : CachedAccessory) : Bool :=
  active.contains (a.associatedPlugin ++ "." ++ a.associatedPlatform)
    || active.contains a.associatedPlatform

/-- `Server.configCachedPlatformAccessories`: walk the cached accessories in
order; skip entries that are not `Platform` instances; keep entries whose
dynamic platform instance is found (the instance's `configureAccessory` is
invoked there, which does not change the verified list); for orphans, skip
when `removeOrphans` is set and keep otherwise.  The verified list becomes
the new `cachedPlatformAccessories`. -/
def configCachedPlatformAccessories (active : List String) (removeOrphans : Bool) :
    List CachedAccessory → List CachedAccessory
  | [] => []
  | a :: rest =>
    if !a.isPlatformInstance then
      configCachedPlatformAccessories active removeOrphans rest
    else if foundInstance active a then
      a :: configCachedPlatformAccessories active removeOrphans rest
    else if removeOrphans then
      configCachedPlatformAccessories active removeOrphans rest
    else
      a :: configCachedPlatformAccessories active removeOrphans rest

/-- The element-wise keep condition of the reconciliation loop. -/
def keepCondition (active : List String) (ro : Bool) (a : CachedAccessory) : Bool :=
  a.isPlatformInstance && (foundInstance active a || !ro)

/-- The reconciliation loop keeps exactly the entries satisfying
`keepCondition`, in order. -/
lemma configCachedPlatformAccessories_eq_filter (active : List String) (ro : Bool)
    (l : List CachedAccessory) :
    configCachedPlatformAccessories active ro l = l.filter (keepCondition active ro) := by
  induction l with
  | nil => rfl
  | cons a rest ih =>
    by_cases hplat : a.isPlatformInstance
    · by_cases hfound : foundInstance active a
      · simp [configCachedPlatformAccessories, keepCondition, hplat, hfound, ih]
      · cases ro with
        | true => simp [configCachedPlatformAccessories, keepCondition, hplat, hfound, ih]
        | false => simp [configCachedPlatformAccessories, keepCondition, hplat, hfound, ih]
    · simp [configCachedPlatformAccessories, keepCondition, hplat, ih]

/-- C3: cache reconciliation is idempotent.  Applying
`configCachedPlatformAccessories` to its own output, with the same active
dynamic-platform instances and the same orphan policy, returns that output
unchanged. -/
theorem configCachedPlatformAccessories_idempotent (active : List String)
    (ro : Bool) (cache : List CachedAccessory) :
    configCachedPlatformAccessories active ro
        (configCachedPlatformAccessories active ro cache) =
      configCachedPlatformAccessories active ro cache := by
  rw [configCachedPlatformAccessories_eq_filter,
    configCachedPlatformAccessories_eq_filter, List.filter_filter]
  apply List.filter_congr
  intro a _
  simp [Bool.and_self]

/-- C4: an orphaned cached accessory (a `Platform` instance whose owning
dynamic-platform instance is not found) is in the verified set iff
`removeOrphans` is false, and when `removeOrphans` is true it is also absent
after a second reconciliation run, so it is not re-added. -/
theorem orphan_in_verified_iff (active : List String) (ro : Bool)
    (cache : List CachedAccessory) (a : CachedAccessory)
    (hmem : a ∈ cache) (hplat : a.isPlatformInstance = true)
    (horph : foundInstance active a = false) :
    (a ∈ configCachedPlatformAccessories active ro cache ↔ ro = false) ∧
      (ro = true →
        a ∉ configCachedPlatformAccessories active ro
              (configCachedPlatformAccessories active ro cache)) := by
  have hmemiff : ∀ l : List CachedAccessory,
      a ∈ configCachedPlatformAccessories active ro l ↔
        a ∈ l ∧ keepCondition active ro a = true := by
    intro l
    rw [configCachedPlatformAccessories_eq_filter, List.mem_filter]
  have hkeep : keepCondition active ro a = (!ro) := by
    simp [keepCondition, hplat, horph]
  constructor
  · rw [hmemiff]
    constructor
    · rintro ⟨-, hk⟩
      rw [hkeep] at hk
      simpa using hk
    · intro hro
      refine ⟨hmem, ?_⟩
      rw [hkeep, hro]
      rfl
  · intro hro
    rw [hmemiff]
    rintro ⟨-, hk⟩
    rw [hkeep, hro] at hk
    exact absurd hk (by simp)

/-- Witness for C4: a concrete orphan, one-element cache, no active
instances.  With `removeOrphans := false` the orphan is kept. -/
theorem orphan_in_verified_iff_witness :
    (⟨true, "plug", "plat", "Lamp"⟩ : CachedAccessory) ∈
        ([⟨true, "plug", "plat", "Lamp"⟩] : List CachedAccessory) ∧
      (⟨true, "plug", "plat", "Lamp"⟩ : CachedAccessory).isPlatformInstance = true ∧
      foundInstance [] ⟨true, "plug", "plat", "Lamp"⟩ = false ∧
      ((⟨true, "plug", "plat", "Lamp"⟩ : CachedAccessory) ∈
          configCachedPlatformAccessories [] false [⟨true, "plug", "plat", "Lamp"⟩] ↔
        false = false) :=
  ⟨by decide, by decide, by decide,
    (orphan_in_verified_iff [] false [⟨true, "plug", "plat", "Lamp"⟩]
      ⟨true, "plug", "plat", "Lamp"⟩ (by decide) (by decide) (by decide)).1⟩

/-! ### Termination signals: the CLI signal handler and `Server.teardown` -/

/-- The two termination signals the CLI module registers handlers for. -/
inductive Sig
  | SIGINT
  | SIGTERM
  deriving DecidableEq, Repr

/-- Observable effects of one pass of `server.teardown()` followed by
`server.api.emit("shutdown")` in the signal handler: persist the accessory
cache (`updateCachedAccessories`), unpublish the bridge, unpublish the
published external accessories, emit the shutdown event. -/
inductive TeardownEff
  | persistCache
  | unpublishBridge
  | unpublishExternals
  | emitShutdown
  deriving DecidableEq, Repr

def teardownEffects : List TeardownEff :=
  [.persistCache, .unpublishBridge, .unpublishExternals, .emitShutdown]

/-- State of the CLI process across signal deliveries: the `terminating`
guard flag and the accumulated teardown effects. -/
structure TermState where
  terminating : Bool
  effects : List TeardownEff
  deriving DecidableEq, Repr

/-- The CLI signal handler: on SIGINT or SIGTERM, return immediately if
`terminating` is already set, otherwise set it and run the teardown
sequence. -/
def handleSignal (s : TermState) (_sig : Sig) : TermState :=
  if s.terminating then s
  else { terminating := true, effects := s.effects ++ teardownEffects }

def deliverSignals (s : TermState) (sigs : List Sig) : TermState :=
  sigs.foldl handleSignal s

def initialTermState : TermState := { terminating := false, effects := [] }

/-- Once the guard flag is set, every further signal is a no-op. -/
lemma deliverSignals_of_terminating (s : TermState) (h : s.terminating = true) :
    ∀ sigs : List Sig, deliverSignals s sigs = s := by
  intro sigs
  induction sigs with
  | nil => rfl
  | cons sig rest ih =>
    have hstep : handleSignal s sig = s := by
      simp [handleSignal, h]
    simpa [deliverSignals, hstep] using ih

/-- C9: delivering two or more termination signals executes the teardown
sequence exactly once — in particular the final cache persist happens exactly
once — and every signal after the first is a no-op on the state. -/
theorem teardown_once_for_multiple_signals (sigs : List Sig)
    (h : 2 ≤ sigs.length) :
    (deliverSignals initialTermState sigs).effects = teardownEffects ∧
      (deliverSignals initialTermState sigs).effects.count TeardownEff.persistCache = 1 ∧
      ∀ s : TermState, s.terminating = true → ∀ sig, handleSignal s sig = s := by
  match sigs with
  | [] => simp at h
  | sig :: rest =>
    have hfirst : handleSignal initialTermState sig =
        { terminating := true, effects := teardownEffects } := by
      simp [handleSignal, initialTermState]
    have hrest :
        deliverSignals { terminating := true, effects := teardownEffects } rest =
          { terminating := true, effects := teardownEffects } :=
      deliverSignals_of_terminating _ rfl rest
    have hall : deliverSignals initialTermState (sig :: rest) =
        { terminating := true, effects := teardownEffects } := by
      simp only [deliverSignals, List.foldl_cons, hfirst]
      exact hrest
    refine ⟨by rw [hall], by rw [hall]; decide, ?_⟩
    intro s hs sig2
    simp [handleSignal, hs]

/-- Witness for C9: two back-to-back signals. -/
theorem teardown_once_for_multiple_signals_witness :
    2 ≤ ([Sig.SIGINT, Sig.SIGTERM] : List Sig).length ∧
      (deliverSignals initialTermState [Sig.SIGINT, Sig.SIGTERM]).effects = teardownEffects :=
  ⟨by decide,
    (teardown_once_for_multiple_signals [Sig.SIGINT, Sig.SIGTERM] (by decide)).1⟩

/-! ### Remote configuration: `Server.handleNewConfig` -/

/-- JavaScript `String.prototype.split` with separator `"."`, over the
character list of the string: splits into the (possibly empty) groups
between dots. -/
def jsSplitDot : List Char → List (List Char)
  | [] => [[]]
  | c :: rest =>
    let r := jsSplitDot rest
    if c = '.' then [] :: r
    else
      match r with
      | [] => [[c]]
      | g :: gs => (c :: g) :: gs

/-- The `targetName` computation of `handleNewConfig`: when `name` contains a
dot, `name.split(".")[1]`, otherwise left undefined. -/
def targetNameOf (name : String) : Option String :=
  if name.toList.contains '.' then some (String.mk ((jsSplitDot name.toList).getD 1 []))
  else none

/-- A configured accessory or platform entry.  `key` is the entry's
`accessory` field for accessory entries and its `platform` field for platform
entries; `body` stands for the rest of the entry's JSON body. -/
structure Entry where
  key : String
  body : Nat
  deriving DecidableEq, Repr

/-- The parts of `this.config` that `handleNewConfig` touches; `none` models
an absent list. -/
structure HConfig where
  accessories : Option (List Entry)
  platforms : Option (List Entry)
  deriving DecidableEq, Repr

/-- The per-entry test of the replacement loop: the entry's key equals the
given name, or equals `targetName` when that is defined and non-empty.  The
loop body checks the two conditions one after the other on the same entry and
breaks on either; the suffix comparison sits behind the truthiness guard
`if (targetName && ...)`, so the empty suffix produced by a name that ends in
a dot never matches. -/
def entryMatches (name : String) (targetName : Option String) (e : Entry) : Bool :=
  e.key == name ||
    (match targetName with
     | some t => !(t == "") && e.key == t
     | none => false)

/-- The replacement loop of `handleNewConfig`: visit entries in order and
replace the first entry matching `entryMatches` with `cfg`; `none` when no
entry matched. -/
def replaceScan (name : String) (targetName : Option String) (cfg : Entry) :
    List Entry → Option (List Entry)
  | [] => none
  | e :: rest =>
    if entryMatches name targetName e then some (cfg :: rest)
    else (replaceScan name targetName cfg rest).map (e :: ·)

/-- The whole replace-or-append operation on one configured list. -/
def upsertList (name : String) (cfg : Entry) (l : List Entry) : List Entry :=
  match replaceScan name (targetNameOf name) cfg l with
  | some l2 => l2
  | none => l ++ [cfg]

/-- `Server.handleNewConfig(type, name, replace, config)`.  A missing list is
initialized to `[]` before the branch runs; with `replace` false the body is
appended, otherwise the replace-or-append scan runs; with a `type` that is
neither `"accessory"` nor `"platform"` (in particular `undefined`, modelled
as `none`) no list is touched.  The configuration file is rewritten with the
resulting document in every case: the second component is the written
document. -/
def handleNewConfig (type_ : Option String) (name : String) (replace : Bool)
    (cfg : Entry) (c : HConfig) : HConfig × HConfig :=
  let c2 :=
    if type_ = some "accessory" then
      let lst := c.accessories.getD []
      if !replace then { c with accessories := some (lst ++ [cfg]) }
      else { c with accessories := some (upsertList name cfg lst) }
    else if type_ = some "platform" then
      let lst := c.platforms.getD []
      if !replace then { c with platforms := some (lst ++ [cfg]) }
      else { c with platforms := some (upsertList name cfg lst) }
    else c
  (c2, c2)

/-- A successful scan replaces exactly the first matching entry. -/
lemma replaceScan_found (name : String) (tn : Option String) (cfg : Entry) :
    ∀ l l2, replaceScan name tn cfg l = some l2 →
      ∃ i, i < l.length ∧ l2 = l.set i cfg ∧
        entryMatches name tn (l.getD i cfg) = true ∧
        ∀ e ∈ l.take i, entryMatches name tn e = false := by
  intro l
  induction l with
  | nil => intro l2 h; simp [replaceScan] at h
  | cons e rest ih =>
    intro l2 h
    by_cases he : entryMatches name tn e
    · refine ⟨0, by simp, ?_, by simpa using he, by simp⟩
      simp only [replaceScan, he, if_true, Option.some.injEq] at h
      simp [← h]
    · simp only [replaceScan, he, Bool.false_eq_true, if_false, Option.map_eq_some'] at h
      obtain ⟨l2', hscan, rfl⟩ := h
      obtain ⟨i, hi, rfl, hmatch, hbefore⟩ := ih l2' hscan
      refine ⟨i + 1, by simpa using hi, by simp, by simpa using hmatch, ?_⟩
      intro e2 he2
      rcases (by simpa using he2 : e2 = e ∨ e2 ∈ rest.take i) with rfl | hmem
      · simpa using he
      · exact hbefore e2 hmem

/-- The scan fails exactly when no entry matches. -/
lemma replaceScan_none (name : String) (tn : Option String) (cfg : Entry) :
    ∀ l, replaceScan name tn cfg l = none ↔
      ∀ e ∈ l, entryMatches name tn e = false := by
  intro l
  induction l with
  | nil => simp [replaceScan]
  | cons e rest ih =>
    by_cases he : entryMatches name tn e
    · simp [replaceScan, he]
    · simp only [replaceScan, he, Bool.false_eq_true, if_false, Option.map_eq_none', ih,
        List.mem_cons]
      constructor
      · rintro hall e2 (rfl | hm)
        · simpa using he
        · exact hall e2 hm
      · intro hall e2 hm
        exact hall e2 (Or.inr hm)

/-- Counterexample to C6 as stated: the claim gives exact-name matches
priority over suffix matches, but the code checks both conditions entry by
entry in one pass.  With entries `foo` and `scoped.foo` and name
`scoped.foo`, the first entry matches the suffix `foo` and is replaced, while
the entry whose name exactly equals `scoped.foo` keeps its old body. -/
theorem handleNewConfig_exact_priority_cex :
    (handleNewConfig (some "accessory") "scoped.foo" true ⟨"scoped.foo", 9⟩
        ⟨some [⟨"foo", 0⟩, ⟨"scoped.foo", 1⟩], none⟩).1.accessories
      = some [⟨"scoped.foo", 9⟩, ⟨"scoped.foo", 1⟩] ∧
      (⟨"scoped.foo", 1⟩ : Entry).key = "scoped.foo" ∧
      (⟨"scoped.foo", 1⟩ : Entry).body ≠ 9 := by
  decide

/-- C6 amended: on a replace request, the entries of the respective list are
scanned in order and the first entry whose name equals the given name or
(when the name contains a dot) equals the post-dot segment is replaced by the
new body, leaving the list length unchanged and putting the new body in the
matched slot; when no entry matches either way, the new body is appended. -/
theorem handleNewConfig_replace_semantics (name : String) (cfg : Entry) (c : HConfig) :
    ((∀ e ∈ c.accessories.getD [], entryMatches name (targetNameOf name) e = false) →
      (handleNewConfig (some "accessory") name true cfg c).1.accessories
        = some (c.accessories.getD [] ++ [cfg])) ∧
    ((∃ e ∈ c.accessories.getD [], entryMatches name (targetNameOf name) e = true) →
      ∃ i, i < (c.accessories.getD []).length ∧
        (handleNewConfig (some "accessory") name true cfg c).1.accessories
          = some ((c.accessories.getD []).set i cfg) ∧
        entryMatches name (targetNameOf name) ((c.accessories.getD []).getD i cfg) = true ∧
        (∀ e ∈ (c.accessories.getD []).take i,
          entryMatches name (targetNameOf name) e = false) ∧
        ((c.accessories.getD []).set i cfg).length = (c.accessories.getD []).length) ∧
    ((∀ e ∈ c.platforms.getD [], entryMatches name (targetNameOf name) e = false) →
      (handleNewConfig (some "platform") name true cfg c).1.platforms
        = some (c.platforms.getD [] ++ [cfg])) ∧
    ((∃ e ∈ c.platforms.getD [], entryMatches name (targetNameOf name) e = true) →
      ∃ i, i < (c.platforms.getD []).length ∧
        (handleNewConfig (some "platform") name true cfg c).1.platforms
          = some ((c.platforms.getD []).set i cfg) ∧
        entryMatches name (targetNameOf name) ((c.platforms.getD []).getD i cfg) = true ∧
        (∀ e ∈ (c.platforms.getD []).take i,
          entryMatches name (targetNameOf name) e = false) ∧
        ((c.platforms.getD []).set i cfg).length = (c.platforms.getD []).length) := by
  have haccResult :
      (handleNewConfig (some "accessory") name true cfg c).1.accessories
        = some (upsertList name cfg (c.accessories.getD [])) := by
    simp [handleNewConfig]
  have hplatResult :
      (handleNewConfig (some "platform") name true cfg c).1.platforms
        = some (upsertList name cfg (c.platforms.getD [])) := by
    simp [handleNewConfig]
  have keyLemma : ∀ l : List Entry,
      ((∀ e ∈ l, entryMatches name (targetNameOf name) e = false) →
        upsertList name cfg l = l ++ [cfg]) ∧
      ((∃ e ∈ l, entryMatches name (targetNameOf name) e = true) →
        ∃ i, i < l.length ∧ upsertList name cfg l = l.set i cfg ∧
          entryMatches name (targetNameOf name) (l.getD i cfg) = true ∧
          (∀ e ∈ l.take i, entryMatches name (targetNameOf name) e = false) ∧
          (l.set i cfg).length = l.length) := by
    intro l
    constructor
    · intro hnone
      have hscan : replaceScan name (targetNameOf name) cfg l = none :=
        (replaceScan_none name (targetNameOf name) cfg l).mpr hnone
      simp [upsertList, hscan]
    · rintro ⟨e, hmem, hmatch⟩
      cases hscan : replaceScan name (targetNameOf name) cfg l with
      | none =>
        have := (replaceScan_none name (targetNameOf name) cfg l).mp hscan e hmem
        rw [hmatch] at this
        exact absurd this (by simp)
      | some l2 =>
        obtain ⟨i, hi, rfl, hm, hb⟩ :=
          replaceScan_found name (targetNameOf name) cfg l l2 hscan
        exact ⟨i, hi, by simp [upsertList, hscan], hm, hb, by simp⟩
  refine ⟨?_, ?_, ?_, ?_⟩
  · intro h
    rw [haccResult, (keyLemma (c.accessories.getD [])).1 h]
  · intro h
    obtain ⟨i, hi, heq, hm, hb, hlen⟩ := (keyLemma (c.accessories.getD [])).2 h
    exact ⟨i, hi, by rw [haccResult, heq], hm, hb, hlen⟩
  · intro h
    rw [hplatResult, (keyLemma (c.platforms.getD [])).1 h]
  · intro h
    obtain ⟨i, hi, heq, hm, hb, hlen⟩ := (keyLemma (c.platforms.getD [])).2 h
    exact ⟨i, hi, by rw [hplatResult, heq], hm, hb, hlen⟩

/-- Witness for the amended C6: a concrete replace on the accessories list
with an exact-name match at index 1. -/
theorem handleNewConfig_replace_semantics_witness :
    (∃ e ∈ (⟨some [⟨"foo", 0⟩, ⟨"bar", 1⟩], some []⟩ : HConfig).accessories.getD [],
      entryMatches "bar" (targetNameOf "bar") e = true) ∧
    (∃ i,
      i < ((⟨some [⟨"foo", 0⟩, ⟨"bar", 1⟩], some []⟩ : HConfig).accessories.getD []).length ∧
      (handleNewConfig (some "accessory") "bar" true ⟨"bar", 5⟩
          ⟨some [⟨"foo", 0⟩, ⟨"bar", 1⟩], some []⟩).1.accessories
        = some (((⟨some [⟨"foo", 0⟩, ⟨"bar", 1⟩], some []⟩ : HConfig).accessories.getD
            []).set i ⟨"bar", 5⟩) ∧
      entryMatches "bar" (targetNameOf "bar")
        (((⟨some [⟨"foo", 0⟩, ⟨"bar", 1⟩], some []⟩ : HConfig).accessories.getD []).getD i
          ⟨"bar", 5⟩) = true ∧
      (∀ e ∈ ((⟨some [⟨"foo", 0⟩, ⟨"bar", 1⟩], some []⟩ : HConfig).accessories.getD
          []).take i, entryMatches "bar" (targetNameOf "bar") e = false) ∧
      (((⟨some [⟨"foo", 0⟩, ⟨"bar", 1⟩], some []⟩ : HConfig).accessories.getD []).set i
          ⟨"bar", 5⟩).length
        = ((⟨some [⟨"foo", 0⟩, ⟨"bar", 1⟩], some []⟩ : HConfig).accessories.getD
            []).length) :=
  ⟨by decide,
    (handleNewConfig_replace_semantics "bar" ⟨"bar", 5⟩
      ⟨some [⟨"foo", 0⟩, ⟨"bar", 1⟩], some []⟩).2.1 (by decide)⟩

/-- C10: the `newConfig` listener registered in the constructor calls
`handleNewConfig` with no arguments, so `type` is `undefined`: neither the
accessory branch nor the platform branch runs, the in-memory lists are
unchanged, and the configuration file is rewritten with the unmodified
configuration. -/
theorem handleNewConfig_no_args (name : String) (replace : Bool) (cfg : Entry)
    (c : HConfig) :
    handleNewConfig none name replace cfg c = (c, c) := by
  rfl

/-! ### Configuration loading: `Server.loadConfig` -/

/-- The `ports` field of the parsed configuration document: absent
(JavaScript `undefined`), JSON `null`, or an object with `start` and `end`
numbers.  Reading `.start` of `null` throws a `TypeError`, which the model
surfaces through `Except`. -/
inductive PortsField
  | absent
  | null
  | pool (start stop : Int)
  deriving DecidableEq, Repr

/-- The `bridge` object of the configuration document, restricted to the
fields `loadConfig` reads or writes. -/
structure RawBridge where
  name : Option String
  username : Option String
  pin : Option String
  deriving DecidableEq, Repr

/-- A parsed configuration document, restricted to what `loadConfig`
validates.  `bridge := none` models a document without a `bridge` object. -/
structure RawConfig where
  bridge : Option RawBridge
  ports : PortsField
  deriving DecidableEq, Repr

/-- The configuration value `loadConfig` returns. -/
structure LoadedConfig where
  bridge : RawBridge
  ports : PortsField
  deriving DecidableEq, Repr

def defaultBridgeUsername : String := "CC:22:3D:E3:CE:30"

/-- The default configuration returned when the file is missing or its JSON
does not parse. -/
def defaultConfig : LoadedConfig :=
  { bridge := { name := some "HOOBS", username := some defaultBridgeUsername,
                pin := some "031-45-154" },
    ports := .absent }

/-- One character class of the username pattern: an uppercase hexadecimal
digit. -/
def isUpperHex (c : Char) : Bool :=
  (decide ('0' ≤ c) && decide (c ≤ '9')) || (decide ('A' ≤ c) && decide (c ≤ 'F'))

/-- The test of `/^([0-9A-F]{2}:){5}([0-9A-F]{2})$/` (no ignore-case flag):
exactly six uppercase hex-digit pairs separated by colons. -/
def usernameOk (s : String) : Bool :=
  match s.toList with
  | [a, b, ':', c, d, ':', e, f, ':', g, h, ':', i, j, ':', k, l] =>
    isUpperHex a && isUpperHex b && isUpperHex c && isUpperHex d &&
      isUpperHex e && isUpperHex f && isUpperHex g && isUpperHex h &&
      isUpperHex i && isUpperHex j && isUpperHex k && isUpperHex l
  | _ => false

/-- `Server.loadConfig`.  A missing file and unparsable JSON return the
default configuration.  Otherwise the port pool is checked first
(`config.ports.start > config.ports.end` disables the pool; reading the
fields of a `null` ports value throws), then the bridge username is tested
against the pattern and replaced with the default when it does not match
(`config.bridge.username` throws when the document has no `bridge` object).
`Except.error` marks the thrown `TypeError`s. -/
def loadConfig (fileExists : Bool) (parsed : Option RawConfig) :
    Except Unit LoadedConfig :=
  if !fileExists then .ok defaultConfig
  else
    match parsed with
    | none => .ok defaultConfig
    | some raw =>
      match raw.ports with
      | .null => .error ()
      | portsIn =>
        let ports2 :=
          match portsIn with
          | .pool s e => if e < s then PortsField.absent else .pool s e
          | x => x
        match raw.bridge with
        | none => .error ()
        | some b =>
          let uname :=
            match b.username with
            | some u => if usernameOk u then u else defaultBridgeUsername
            | none => defaultBridgeUsername
          .ok { bridge := { b with username := some uname }, ports := ports2 }

/-- Counterexample to C7 as stated: the username regex has no ignore-case
flag, so a lowercase hex username does not match and is replaced with the
default instead of being accepted. -/
theorem loadConfig_lowercase_username_cex :
    loadConfig true
        (some { bridge := some { name := none,
                                 username := some "aa:bb:cc:dd:ee:ff",
                                 pin := none },
                ports := .absent })
      = .ok { bridge := { name := none, username := some defaultBridgeUsername,
                          pin := none },
              ports := .absent } ∧
      ("aa:bb:cc:dd:ee:ff" : String) ≠ defaultBridgeUsername := by
  constructor
  · rfl
  · decide

/-- C7 amended: the bridge username is kept exactly when it matches the
uppercase hex-pair pattern `XX:XX:XX:XX:XX:XX` (the test is case-sensitive,
so lowercase hex is replaced); every non-matching value is replaced with the
documented default username and the configuration is still returned, not
rejected. -/
theorem loadConfig_username_validation (raw : RawConfig) (b : RawBridge)
    (u : String) (hb : raw.bridge = some b) (hu : b.username = some u)
    (hp : raw.ports ≠ .null) :
    ∃ c, loadConfig true (some raw) = .ok c ∧
      c.bridge.username = some (if usernameOk u then u else defaultBridgeUsername) := by
  cases hports : raw.ports with
  | null => exact absurd hports hp
  | absent =>
    refine ⟨{ bridge := { name := b.name,
                          username := some (if usernameOk u then u
                                            else defaultBridgeUsername),
                          pin := b.pin },
              ports := .absent }, ?_, rfl⟩
    simp [loadConfig, hports, hb, hu]
  | pool s e =>
    refine ⟨{ bridge := { name := b.name,
                          username := some (if usernameOk u then u
                                            else defaultBridgeUsername),
                          pin := b.pin },
              ports := if e < s then .absent else .pool s e }, ?_, rfl⟩
    simp [loadConfig, hports, hb, hu]

/-- Witness for the amended C7: an uppercase username is kept, at a concrete
configuration document. -/
theorem loadConfig_username_validation_witness :
    (some { name := none, username := some "AA:00:FF:12:34:56",
            pin := none } : Option RawBridge)
        = some { name := none, username := some "AA:00:FF:12:34:56", pin := none } ∧
      (PortsField.absent ≠ PortsField.null) ∧
      ∃ c, loadConfig true
          (some { bridge := some { name := none,
                                   username := some "AA:00:FF:12:34:56",
                                   pin := none },
                  ports := .absent })
        = .ok c ∧
        c.bridge.username
          = some (if usernameOk "AA:00:FF:12:34:56" then "AA:00:FF:12:34:56"
                  else defaultBridgeUsername) :=
  ⟨rfl, by decide,
    loadConfig_username_validation
      { bridge := some { name := none, username := some "AA:00:FF:12:34:56", pin := none },
        ports := .absent }
      { name := none, username := some "AA:00:FF:12:34:56", pin := none }
      "AA:00:FF:12:34:56" rfl rfl (by decide)⟩

/-- Counterexample to C8 as stated: a configuration file whose JSON parses to
a document without a `bridge` object makes `loadConfig` read
`config.bridge.username` of `undefined`, which throws — loading does not
terminate normally with defaults. -/
theorem loadConfig_missing_bridge_cex :
    loadConfig true (some { bridge := none, ports := .absent }) = .error () := by
  rfl

/-- C8 amended: a missing file and unparsable JSON are recovered with the
default configuration, and for parsed documents that contain a `bridge`
object and whose `ports` field is not `null`, loading returns normally with
an invalid port range (`start > end`) replaced by an absent pool; a parsed
document without a `bridge` object (or with a `null` ports value) throws
instead of being recovered. -/
theorem loadConfig_recovery (raw : RawConfig) (b : RawBridge)
    (hb : raw.bridge = some b) (hp : raw.ports ≠ .null) :
    (∀ parsed, loadConfig false parsed = .ok defaultConfig) ∧
      loadConfig true none = .ok defaultConfig ∧
      ∃ c, loadConfig true (some raw) = .ok c ∧
        ∀ s e, raw.ports = .pool s e → e < s → c.ports = .absent := by
  refine ⟨fun parsed => rfl, rfl, ?_⟩
  cases hports : raw.ports with
  | null => exact absurd hports hp
  | absent =>
    cases hname : b.username with
    | none =>
      refine ⟨{ bridge := { name := b.name, username := some defaultBridgeUsername,
                            pin := b.pin },
                ports := .absent },
        by simp [loadConfig, hports, hb, hname], ?_⟩
      intro s e hpe
      exact absurd hpe (by simp)
    | some u =>
      refine ⟨{ bridge := { name := b.name,
                            username := some (if usernameOk u then u
                                              else defaultBridgeUsername),
                            pin := b.pin },
                ports := .absent },
        by simp [loadConfig, hports, hb, hname], ?_⟩
      intro s e hpe
      exact absurd hpe (by simp)
  | pool s0 e0 =>
    cases hname : b.username with
    | none =>
      refine ⟨{ bridge := { name := b.name, username := some defaultBridgeUsername,
                            pin := b.pin },
                ports := if e0 < s0 then .absent else .pool s0 e0 },
        by simp [loadConfig, hports, hb, hname], ?_⟩
      intro s e hpe hlt
      cases hpe
      simp [hlt]
    | some u =>
      refine ⟨{ bridge := { name := b.name,
                            username := some (if usernameOk u then u
                                              else defaultBridgeUsername),
                            pin := b.pin },
                ports := if e0 < s0 then .absent else .pool s0 e0 },
        by simp [loadConfig, hports, hb, hname], ?_⟩
      intro s e hpe hlt
      cases hpe
      simp [hlt]

/-- Witness for the amended C8: a concrete document with a bridge object and
an inverted port range loads normally with the pool disabled. -/
theorem loadConfig_recovery_witness :
    ((⟨some ⟨none, none, none⟩, .pool 5 2⟩ : RawConfig).bridge = some ⟨none, none, none⟩) ∧
      ((⟨some ⟨none, none, none⟩, .pool 5 2⟩ : RawConfig).ports ≠ PortsField.null) ∧
      ∃ c, loadConfig true (some ⟨some ⟨none, none, none⟩, .pool 5 2⟩) = .ok c ∧
        ∀ s e, (⟨some ⟨none, none, none⟩, .pool 5 2⟩ : RawConfig).ports = .pool s e →
          e < s → c.ports = .absent :=
  ⟨rfl, by decide,
    (loadConfig_recovery ⟨some ⟨none, none, none⟩, .pool 5 2⟩ ⟨none, none, none⟩
      rfl (by decide)).2.2⟩

/-! ### Publish coordination: `Server.run`, `Server.loadPlatformAccessories`
and the pending-call counter

A run is modelled as a trace of the three events that touch the counter: a
platform's `accessories()` call starting (`this.asyncCalls++` in
`loadPlatformAccessories`), a discovery callback completing
(`this.asyncCalls--` followed by the guarded `publish()`), and the end of the
synchronous load pass in `run()` (`this.asyncWait = false` followed by the
guarded `publish()`).  Calls start only during the synchronous pass, and the
`once`-wrapper makes each begun call complete at most once, which the trace
shape below encodes: a synchronous phase whose completions never outnumber
its starts, the end of the synchronous pass, then one completion for each
still-pending call. -/

inductive RunEv
  | beginCall
  | completeCall
  | endSyncLoad
  deriving DecidableEq, Repr

/-- The orchestrator state the publish decision reads: `asyncCalls`,
`asyncWait`, and the number of `publish()` invocations so far. -/
structure RunState where
  asyncCalls : Nat
  asyncWait : Bool
  published : Nat
  deriving DecidableEq, Repr

/-- One event against the orchestrator state, exactly as the source guards
`publish()`: a completing callback decrements the counter and publishes when
it reaches zero with the synchronous pass over; the end of the synchronous
pass clears `asyncWait` and publishes when the counter is already zero. -/
def runStep (s : RunState) : RunEv → RunState
  | .beginCall => { s with asyncCalls := s.asyncCalls + 1 }
  | .completeCall =>
    let n := s.asyncCalls - 1
    if n = 0 ∧ s.asyncWait = false then
      { asyncCalls := n, asyncWait := s.asyncWait, published := s.published + 1 }
    else
      { s with asyncCalls := n }
  | .endSyncLoad =>
    let s2 := { s with asyncWait := false }
    if s2.asyncCalls = 0 then { s2 with published := s2.published + 1 } else s2

/-- Run a trace from the state `run()` starts with: no pending calls,
`asyncWait` set, nothing published. -/
def runTrace (t : List RunEv) : RunState :=
  t.foldl runStep ⟨0, true, 0⟩

/-- Well-formedness of the synchronous phase, with `p` pending calls carried
in: completions only happen while a call is pending (each begun call
completes at most once thanks to the `once` guard), and the phase contains
no `endSyncLoad`. -/
def syncOk : Nat → List RunEv → Bool
  | _, [] => true
  | p, .beginCall :: r => syncOk (p + 1) r
  | p, .completeCall :: r => decide (0 < p) && syncOk (p - 1) r
  | _, .endSyncLoad :: _ => false

/-- The number of still-pending discovery calls after a list of events,
starting from `p` pending. -/
def pendingAfter : Nat → List RunEv → Nat
  | p, [] => p
  | p, .beginCall :: r => pendingAfter (p + 1) r
  | p, .completeCall :: r => pendingAfter (p - 1) r
  | p, .endSyncLoad :: r => pendingAfter p r

lemma syncOk_of_append (xs ys : List RunEv) :
    ∀ n, syncOk n (xs ++ ys) = true → syncOk n xs = true := by
  induction xs with
  | nil => intro n _; rfl
  | cons ev rest ih =>
    intro n h
    cases ev with
    | beginCall =>
      simp only [List.cons_append, syncOk] at h ⊢
      exact ih (n + 1) h
    | completeCall =>
      simp only [List.cons_append, syncOk, Bool.and_eq_true] at h ⊢
      exact ⟨h.1, ih (n - 1) h.2⟩
    | endSyncLoad =>
      simp only [List.cons_append, syncOk] at h
      exact absurd h (by decide)

lemma pendingAfter_append (xs ys : List RunEv) :
    ∀ n, pendingAfter n (xs ++ ys) = pendingAfter (pendingAfter n xs) ys := by
  induction xs with
  | nil => intro n; rfl
  | cons ev rest ih =>
    intro n
    cases ev with
    | beginCall => simpa only [List.cons_append, pendingAfter] using ih (n + 1)
    | completeCall => simpa only [List.cons_append, pendingAfter] using ih (n - 1)
    | endSyncLoad => simpa only [List.cons_append, pendingAfter] using ih n

lemma pendingAfter_replicate_complete (j : Nat) :
    ∀ m, pendingAfter m (List.replicate j .completeCall) = m - j := by
  induction j with
  | zero => intro m; rfl
  | succ j ih =>
    intro m
    rw [List.replicate_succ]
    show pendingAfter (m - 1) (List.replicate j .completeCall) = m - (j + 1)
    rw [ih (m - 1)]
    omega

/-- Folding the synchronous phase: the counter tracks `pendingAfter`, the
wait flag stays set, and nothing is published (`publish()` is unreachable
while `asyncWait` holds). -/
lemma foldl_runStep_sync (t : List RunEv) :
    ∀ n pub, syncOk n t = true →
      List.foldl runStep ⟨n, true, pub⟩ t = ⟨pendingAfter n t, true, pub⟩ := by
  induction t with
  | nil => intro n pub _; rfl
  | cons ev rest ih =>
    intro n pub h
    cases ev with
    | beginCall =>
      rw [List.foldl_cons]
      have hstep : runStep ⟨n, true, pub⟩ .beginCall = ⟨n + 1, true, pub⟩ := rfl
      rw [hstep]
      simp only [syncOk] at h
      exact ih (n + 1) pub h
    | completeCall =>
      simp only [syncOk, Bool.and_eq_true] at h
      rw [List.foldl_cons]
      have hstep : runStep ⟨n, true, pub⟩ .completeCall = ⟨n - 1, true, pub⟩ := by
        simp [runStep]
      rw [hstep]
      exact ih (n - 1) pub h.2
    | endSyncLoad =>
      simp only [syncOk] at h
      exact absurd h (by decide)

/-- Folding the trailing completions from a state with the wait flag
cleared: the last completion that drains the counter publishes, exactly
once. -/
lemma foldl_runStep_completes (j : Nat) :
    ∀ m pub, j ≤ m →
      List.foldl runStep ⟨m, false, pub⟩ (List.replicate j .completeCall)
        = ⟨m - j, false, if j = m ∧ 0 < j then pub + 1 else pub⟩ := by
  induction j with
  | zero =>
    intro m pub _
    simp
  | succ j ih =>
    intro m pub hj
    rw [List.replicate_succ, List.foldl_cons]
    by_cases hm1 : m = 1
    · subst hm1
      have hj0 : j = 0 := by omega
      subst hj0
      simp [runStep]
    · have hm2 : 2 ≤ m := by omega
      have hne : ¬(m - 1 = 0) := by omega
      have hstep : runStep ⟨m, false, pub⟩ .completeCall = ⟨m - 1, false, pub⟩ := by
        simp [runStep, hne]
      rw [hstep, ih (m - 1) pub (by omega)]
      by_cases hcase : j = m - 1
      · have hcl : j = m - 1 ∧ 0 < j := ⟨hcase, by omega⟩
        have hcr : j + 1 = m ∧ 0 < j + 1 := ⟨by omega, by omega⟩
        have h1 : m - 1 - j = 0 := by omega
        have h2 : m - (j + 1) = 0 := by omega
        rw [if_pos hcl, if_pos hcr, h1, h2]
      · have hcl : ¬(j = m - 1 ∧ 0 < j) := by omega
        have hcr : ¬(j + 1 = m ∧ 0 < j + 1) := by omega
        have h1 : m - 1 - j = m - (j + 1) := by omega
        rw [if_neg hcl, if_neg hcr, h1]

lemma prefix_append_cases {α : Type} (xs ys p : List α) (h : p <+: xs ++ ys) :
    p <+: xs ∨ ∃ q, p = xs ++ q ∧ q <+: ys := by
  induction xs generalizing p with
  | nil => exact Or.inr ⟨p, by simp, by simpa using h⟩
  | cons x xs ih =>
    cases p with
    | nil => exact Or.inl List.nil_prefix
    | cons b p2 =>
      obtain ⟨t, ht⟩ := h
      simp only [List.cons_append] at ht
      injection ht with h1 h2
      subst h1
      rcases ih p2 ⟨t, h2⟩ with hpre | ⟨q, rfl, hq⟩
      · obtain ⟨r, rfl⟩ := hpre
        exact Or.inl ⟨r, by simp⟩
      · exact Or.inr ⟨q, by simp, hq⟩

lemma prefix_cons_cases {α : Type} (e : α) (ys q : List α) (h : q <+: e :: ys) :
    q = [] ∨ ∃ q2, q = e :: q2 ∧ q2 <+: ys := by
  cases q with
  | nil => exact Or.inl rfl
  | cons b q2 =>
    obtain ⟨t, ht⟩ := h
    simp only [List.cons_append] at ht
    injection ht with h1 h2
    subst h1
    exact Or.inr ⟨q2, rfl, ⟨t, h2⟩⟩

lemma prefix_replicate {α : Type} (a : α) (k : Nat) (q : List α)
    (h : q <+: List.replicate k a) :
    q = List.replicate q.length a ∧ q.length ≤ k := by
  constructor
  · apply List.eq_replicate_length.mpr
    intro b hb
    exact List.eq_of_mem_replicate (h.subset hb)
  · simpa using h.length_le

/-- C1: on every run — a well-formed synchronous phase `t₁` that leaves `k`
discovery calls pending, followed by the end of the synchronous pass and the
`k` outstanding completions — `publish()` is invoked exactly once; and on
every prefix of the run in which the synchronous pass has not ended or some
discovery call is still pending, `publish()` has not been invoked at all, so
completions neither publish early nor publish a second time. -/
theorem publish_exactly_once (t₁ : List RunEv) (k : Nat)
    (hsync : syncOk 0 t₁ = true) (hk : pendingAfter 0 t₁ = k) :
    (runTrace (t₁ ++ RunEv.endSyncLoad :: List.replicate k RunEv.completeCall)).published
        = 1 ∧
      ∀ p, p <+: t₁ ++ RunEv.endSyncLoad :: List.replicate k RunEv.completeCall →
        (RunEv.endSyncLoad ∉ p ∨ 0 < pendingAfter 0 p) →
        (runTrace p).published = 0 := by
  constructor
  · rw [runTrace, List.foldl_append, foldl_runStep_sync t₁ 0 0 hsync, hk,
      List.foldl_cons]
    cases k with
    | zero => simp [runStep]
    | succ k2 =>
      have hstep : runStep ⟨k2 + 1, true, 0⟩ .endSyncLoad = ⟨k2 + 1, false, 0⟩ := by
        simp [runStep]
      rw [hstep, foldl_runStep_completes (k2 + 1) (k2 + 1) 0 le_rfl]
      simp
  · intro p hp hcond
    rcases prefix_append_cases t₁
        (RunEv.endSyncLoad :: List.replicate k RunEv.completeCall) p hp with
      hpre | ⟨q, rfl, hq⟩
    · obtain ⟨rest, hrest⟩ := hpre
      have hsync2 : syncOk 0 p = true :=
        syncOk_of_append p rest 0 (by rw [hrest]; exact hsync)
      rw [runTrace, foldl_runStep_sync p 0 0 hsync2]
    · rcases prefix_cons_cases RunEv.endSyncLoad
          (List.replicate k RunEv.completeCall) q hq with rfl | ⟨q2, rfl, hq2⟩
      · rw [List.append_nil, runTrace, foldl_runStep_sync t₁ 0 0 hsync]
      · obtain ⟨hqrep, hlen⟩ := prefix_replicate RunEv.completeCall k q2 hq2
        have hpend : pendingAfter 0 (t₁ ++ RunEv.endSyncLoad :: q2) = k - q2.length := by
          rw [pendingAfter_append, hk]
          show pendingAfter k q2 = k - q2.length
          rw [hqrep, pendingAfter_replicate_complete]
          simp
        have hjk : q2.length < k := by
          rcases hcond with hno | hpos
          · exact absurd (by simp : RunEv.endSyncLoad ∈ t₁ ++ RunEv.endSyncLoad :: q2) hno
          · rw [hpend] at hpos
            omega
        rw [runTrace, List.foldl_append, foldl_runStep_sync t₁ 0 0 hsync, hk,
          List.foldl_cons]
        have hkne : k ≠ 0 := by omega
        have hstep : runStep ⟨k, true, 0⟩ .endSyncLoad = ⟨k, false, 0⟩ := by
          simp [runStep, hkne]
        rw [hstep, hqrep, foldl_runStep_completes q2.length k 0 (by omega)]
        have hno2 : ¬(q2.length = k ∧ 0 < q2.length) := by omega
        simp [hno2]

/-- Witness for C1: two platforms whose discovery calls begin during the
synchronous pass, one completing synchronously and one after the pass ends;
exactly one publish happens. -/
theorem publish_exactly_once_witness :
    syncOk 0 [RunEv.beginCall, RunEv.beginCall, RunEv.completeCall] = true ∧
      pendingAfter 0 [RunEv.beginCall, RunEv.beginCall, RunEv.completeCall] = 1 ∧
      (runTrace ([RunEv.beginCall, RunEv.beginCall, RunEv.completeCall] ++
          RunEv.endSyncLoad :: List.replicate 1 RunEv.completeCall)).published = 1 :=
  ⟨by decide, by decide,
    (publish_exactly_once [RunEv.beginCall, RunEv.beginCall, RunEv.completeCall] 1
      (by decide) (by decide)).1⟩

/-! ### External accessories: `Server.handlePublishExternalAccessories` and
`Server.generateAddress`

`generateAddress` feeds the accessory's stable identifier to Node's SHA-1,
takes the hex digest, and formats its first twelve digits as an uppercase
MAC-style address.  SHA-1 is implemented below over byte lists with `Nat`
arithmetic; identifiers are the ASCII UUID strings the bridge produces, for
which the UTF-8 bytes are the code points. -/

def w32 (x : Nat) : Nat := x % 4294967296

def rotl (n x : Nat) : Nat := w32 ((x <<< n) ||| (x >>> (32 - n)))

def beBytes (k n : Nat) : List Nat :=
  (List.range k).map (fun i => (n >>> (8 * (k - 1 - i))) % 256)

def padMessage (msg : List Nat) : List Nat :=
  let len := msg.length
  let zeros := (64 + 55 - len % 64) % 64
  msg ++ [128] ++ List.replicate zeros 0 ++ beBytes 8 (8 * len)

def chunkWords (bytes : List Nat) : List Nat :=
  (List.range 16).map (fun i =>
    bytes.getD (4 * i) 0 * 16777216 + bytes.getD (4 * i + 1) 0 * 65536 +
      bytes.getD (4 * i + 2) 0 * 256 + bytes.getD (4 * i + 3) 0)

def extendWords (ws : List Nat) : Nat → List Nat
  | 0 => ws
  | n + 1 =>
    let prev := extendWords ws n
    let t := prev.length
    prev ++ [rotl 1 ((prev.getD (t - 3) 0 ^^^ prev.getD (t - 8) 0) ^^^
      (prev.getD (t - 14) 0 ^^^ prev.getD (t - 16) 0))]

def sha1F (t b c d : Nat) : Nat :=
  if t < 20 then (b &&& c) ||| ((b ^^^ 4294967295) &&& d)
  else if t < 40 then (b ^^^ c) ^^^ d
  else if t < 60 then (b &&& c) ||| (b &&& d) ||| (c &&& d)
  else (b ^^^ c) ^^^ d

def sha1K (t : Nat) : Nat :=
  if t < 20 then 1518500249
  else if t < 40 then 1859775393
  else if t < 60 then 2400959708
  else 3395469782

def sha1Rounds (ws : List Nat) (h : Nat × Nat × Nat × Nat × Nat) :
    Nat × Nat × Nat × Nat × Nat :=
  (List.range 80).foldl
    (fun st t =>
      let a := st.1
      let b := st.2.1
      let c := st.2.2.1
      let d := st.2.2.2.1
      let e := st.2.2.2.2
      let temp := w32 (rotl 5 a + sha1F t b c d + e + sha1K t + ws.getD t 0)
      (temp, a, rotl 30 b, c, d))
    h

def processChunk (h : Nat × Nat × Nat × Nat × Nat) (chunk : List Nat) :
    Nat × Nat × Nat × Nat × Nat :=
  let ws := extendWords (chunkWords chunk) 64
  let r := sha1Rounds ws h
  (w32 (h.1 + r.1), w32 (h.2.1 + r.2.1), w32 (h.2.2.1 + r.2.2.1),
    w32 (h.2.2.2.1 + r.2.2.2.1), w32 (h.2.2.2.2 + r.2.2.2.2))

/-- SHA-1 digest of a byte list, as 20 bytes. -/
def sha1Bytes (msg : List Nat) : List Nat :=
  let padded := padMessage msg
  let chunks := (List.range (padded.length / 64)).map
    (fun i => (padded.drop (64 * i)).take 64)
  let r := chunks.foldl processChunk
    (1732584193, 4023233417, 2562383102, 271733878, 3285377520)
  beBytes 4 r.1 ++ beBytes 4 r.2.1 ++ beBytes 4 r.2.2.1 ++
    beBytes 4 r.2.2.2.1 ++ beBytes 4 r.2.2.2.2

def hexDigit (n : Nat) : Char :=
  if n < 10 then Char.ofNat (48 + n) else Char.ofNat (87 + n)

def hexByte (b : Nat) : List Char := [hexDigit (b / 16), hexDigit (b % 16)]

/-- The lowercase hex digest string `sha1sum.digest("hex")`, as characters. -/
def sha1HexChars (msg : List Nat) : List Char := (sha1Bytes msg).flatMap hexByte

def strBytes (s : String) : List Nat := s.toList.map Char.toNat

/-- `Server.generateAddress(data)`: the first twelve hex digits of the SHA-1
digest of `data`, arranged in the `xx:xx:xx:xx:xx:xx` template and
uppercased. -/
def generateAddress (data : String) : String :=
  let s := sha1HexChars (strBytes data)
  String.mk (([s.getD 0 'x', s.getD 1 'x', ':', s.getD 2 'x', s.getD 3 'x', ':',
    s.getD 4 'x', s.getD 5 'x', ':', s.getD 6 'x', s.getD 7 'x', ':',
    s.getD 8 'x', s.getD 9 'x', ':', s.getD 10 'x', s.getD 11 'x']).map Char.toUpper)

/-- What `handlePublishExternalAccessories` reads from a published accessory:
its stable `UUID`, display name and category. -/
structure ExtAccessory where
  UUID : String
  displayName : String
  category : Nat
  deriving DecidableEq, Repr

/-- The configured external port pool `{start, end}`. -/
structure PortPool where
  start : Nat
  endPort : Nat
  deriving DecidableEq, Repr

/-- Orchestrator state for external publication: the pool
(`this.externalPorts`), the next pool port (`this.nextExternalPort`, with
`none` for `undefined`), and the address-keyed map of published accessories
(`this.publishedAccessories`). -/
structure ExtState where
  externalPorts : Option PortPool
  nextExternalPort : Option Nat
  published : List (String × ExtAccessory)
  deriving DecidableEq, Repr

/-- Lookup in the published-accessories map. -/
def lookupAddr (k : String) : List (String × ExtAccessory) → Option ExtAccessory
  | [] => none
  | (k2, v) :: rest => if k2 = k then some v else lookupAddr k rest

/-- The port-allocation block at the top of the per-accessory loop body: no
pool means port 0; with a pool, a `nextExternalPort` beyond `end` means the
pool ran out (port 0, JavaScript compares `undefined > end` as false); a
defined `nextExternalPort` within the pool is taken and incremented; an
undefined one means this is the first external accessory, which takes
`start`. -/
def allocPort (s : ExtState) : Nat × ExtState :=
  match s.externalPorts with
  | none => (0, s)
  | some pool =>
    match s.nextExternalPort with
    | some n =>
      if pool.endPort < n then (0, s)
      else (n, { s with nextExternalPort := some (n + 1) })
    | none => (pool.start, { s with nextExternalPort := some (pool.start + 1) })

/-- One published-accessory event: the advertised address and the allocated
port of a successful `hapAccessory.publish`. -/
structure PublishEvent where
  address : String
  port : Nat
  acc : ExtAccessory
  deriving DecidableEq, Repr

/-- One iteration of the loop body of `handlePublishExternalAccessories`:
allocate a port, derive the advertised address from the accessory's `UUID`,
and either reject on an address collision (warning, nothing published) or
record and publish the accessory.  Returns the new state, the publish events
of this iteration, and the allocated port. -/
def publishExternalStep (s : ExtState) (a : ExtAccessory) :
    ExtState × List PublishEvent × Nat :=
  let pr := allocPort s
  let addr := generateAddress a.UUID
  match lookupAddr addr pr.2.published with
  | some _ => (pr.2, [], pr.1)
  | none =>
    ({ pr.2 with published := (addr, a) :: pr.2.published },
      [⟨addr, pr.1, a⟩], pr.1)

/-- `Server.handlePublishExternalAccessories`: the loop over the requested
accessories, collecting publish events and the per-request allocated
ports. -/
def publishExternalLoop (s : ExtState) :
    List ExtAccessory → ExtState × List PublishEvent × List Nat
  | [] => (s, [], [])
  | a :: rest =>
    let r1 := publishExternalStep s a
    let r2 := publishExternalLoop r1.1 rest
    (r2.1, r1.2.1 ++ r2.2.1, r1.2.2 :: r2.2.2)

lemma allocPort_published (s : ExtState) : (allocPort s).2.published = s.published := by
  unfold allocPort
  cases s.externalPorts with
  | none => rfl
  | some pool =>
    cases s.nextExternalPort with
    | none => rfl
    | some n =>
      by_cases h : pool.endPort < n
      · simp [h]
      · simp [h]

/-- The step reports the port `allocPort` chose and keeps the pool and
pool-pointer `allocPort` computed, whatever the collision check does. -/
lemma publishExternalStep_known (s : ExtState) (ep : Option PortPool)
    (np : Option Nat) (pub2 : List (String × ExtAccessory)) (p : Nat)
    (a : ExtAccessory) (h : allocPort s = (p, ⟨ep, np, pub2⟩)) :
    (publishExternalStep s a).2.2 = p ∧
      ∃ pub3, (publishExternalStep s a).1 = ⟨ep, np, pub3⟩ := by
  simp only [publishExternalStep, h]
  cases hl : lookupAddr (generateAddress a.UUID) pub2 with
  | some c => exact ⟨rfl, pub2, rfl⟩
  | none => exact ⟨rfl, (generateAddress a.UUID, a) :: pub2, rfl⟩

/-- Ports handed out from a pool `{S, E}` when the pool pointer is already at
`n`: the run continues `n, n+1, …` until `E` and then auto-assigns 0, whatever
the published map holds. -/
lemma loop_ports_from (accs : List ExtAccessory) :
    ∀ (S E n : Nat) (pub : List (String × ExtAccessory)),
      (publishExternalLoop ⟨some ⟨S, E⟩, some n, pub⟩ accs).2.2
        = List.range' n (min accs.length (E + 1 - n)) ++
            List.replicate (accs.length - (E + 1 - n)) 0 := by
  induction accs with
  | nil =>
    intro S E n pub
    simp [publishExternalLoop]
  | cons a rest ih =>
    intro S E n pub
    have hloop : (publishExternalLoop ⟨some ⟨S, E⟩, some n, pub⟩ (a :: rest)).2.2
        = (publishExternalStep ⟨some ⟨S, E⟩, some n, pub⟩ a).2.2 ::
          (publishExternalLoop (publishExternalStep ⟨some ⟨S, E⟩, some n, pub⟩ a).1
            rest).2.2 := by
      simp [publishExternalLoop]
    by_cases hn : E < n
    · have halloc : allocPort ⟨some ⟨S, E⟩, some n, pub⟩
          = (0, ⟨some ⟨S, E⟩, some n, pub⟩) := by
        simp [allocPort, hn]
      obtain ⟨hport, pub3, hstate⟩ :=
        publishExternalStep_known ⟨some ⟨S, E⟩, some n, pub⟩ (some ⟨S, E⟩) (some n)
          pub 0 a halloc
      rw [hloop, hport, hstate, ih S E n pub3]
      have h0 : E + 1 - n = 0 := by omega
      simp [h0, List.replicate_succ]
    · have halloc : allocPort ⟨some ⟨S, E⟩, some n, pub⟩
          = (n, ⟨some ⟨S, E⟩, some (n + 1), pub⟩) := by
        simp [allocPort, hn]
      obtain ⟨hport, pub3, hstate⟩ :=
        publishExternalStep_known ⟨some ⟨S, E⟩, some n, pub⟩ (some ⟨S, E⟩)
          (some (n + 1)) pub n a halloc
      rw [hloop, hport, hstate, ih S E (n + 1) pub3]
      have e1 : E + 1 - (n + 1) = E - n := by omega
      have e2 : min (rest.length + 1) (E + 1 - n) = min rest.length (E - n) + 1 := by
        omega
      have e3 : (rest.length + 1) - (E + 1 - n) = rest.length - (E - n) := by omega
      rw [e1]
      show _ = List.range' n (min (a :: rest).length (E + 1 - n)) ++
        List.replicate ((a :: rest).length - (E + 1 - n)) 0
      simp only [List.length_cons]
      rw [e2, e3, List.range'_succ]
      simp

/-- C2: with a configured pool `{start := S, end := E}`, a run of `N`
external-accessory publish requests is allocated exactly the ports
`S, S+1, …` for the first `min N (E-S+1)` requests and port 0 (auto-assign)
for every request after the pool is exhausted, and no nonzero port is handed
out twice within the run. -/
theorem external_port_allocation (accs : List ExtAccessory) (S E : Nat)
    (hSE : S ≤ E) :
    (publishExternalLoop ⟨some ⟨S, E⟩, none, []⟩ accs).2.2
        = List.range' S (min accs.length (E - S + 1)) ++
            List.replicate (accs.length - (E - S + 1)) 0 ∧
      ((publishExternalLoop ⟨some ⟨S, E⟩, none, []⟩ accs).2.2.filter
          (fun p => decide (p ≠ 0))).Nodup := by
  have hmain : (publishExternalLoop ⟨some ⟨S, E⟩, none, []⟩ accs).2.2
      = List.range' S (min accs.length (E - S + 1)) ++
          List.replicate (accs.length - (E - S + 1)) 0 := by
    cases accs with
    | nil => simp [publishExternalLoop]
    | cons a rest =>
      have hloop : (publishExternalLoop ⟨some ⟨S, E⟩, none, []⟩ (a :: rest)).2.2
          = (publishExternalStep ⟨some ⟨S, E⟩, none, []⟩ a).2.2 ::
            (publishExternalLoop (publishExternalStep ⟨some ⟨S, E⟩, none, []⟩ a).1
              rest).2.2 := by
        simp [publishExternalLoop]
      have halloc : allocPort ⟨some ⟨S, E⟩, none, []⟩
          = (S, ⟨some ⟨S, E⟩, some (S + 1), []⟩) := by
        simp [allocPort]
      obtain ⟨hport, pub3, hstate⟩ :=
        publishExternalStep_known ⟨some ⟨S, E⟩, none, []⟩ (some ⟨S, E⟩)
          (some (S + 1)) [] S a halloc
      rw [hloop, hport, hstate, loop_ports_from rest S E (S + 1) pub3]
      have e1 : E + 1 - (S + 1) = E - S := by omega
      have e2 : min (rest.length + 1) (E - S + 1) = min rest.length (E - S) + 1 := by
        omega
      have e3 : (rest.length + 1) - (E - S + 1) = rest.length - (E - S) := by omega
      rw [e1]
      show _ = List.range' S (min (a :: rest).length (E - S + 1)) ++
        List.replicate ((a :: rest).length - (E - S + 1)) 0
      simp only [List.length_cons]
      rw [e2, e3, List.range'_succ]
      simp
  refine ⟨hmain, ?_⟩
  rw [hmain, List.filter_append]
  have hrep : (List.replicate (accs.length - (E - S + 1)) 0).filter
      (fun p => decide (p ≠ 0)) = [] := by
    induction accs.length - (E - S + 1) with
    | zero => rfl
    | succ k ihk => simp [List.replicate_succ, ihk]
  rw [hrep, List.append_nil]
  exact (List.nodup_range' S (min accs.length (E - S + 1)) 1 (by omega)).filter _

/-- Witness for C2: three requests against the pool `{1, 2}` receive ports
`1, 2` and then the auto-assign fallback `0`. -/
theorem external_port_allocation_witness :
    (1 : Nat) ≤ 2 ∧
      (publishExternalLoop ⟨some ⟨1, 2⟩, none, []⟩
          [⟨"uuid-a", "A", 1⟩, ⟨"uuid-b", "B", 1⟩, ⟨"uuid-c", "C", 1⟩]).2.2
        = [1, 2, 0] := by
  refine ⟨by decide, ?_⟩
  rw [(external_port_allocation
    [⟨"uuid-a", "A", 1⟩, ⟨"uuid-b", "B", 1⟩, ⟨"uuid-c", "C", 1⟩] 1 2 (by decide)).1]
  decide

/-- Once an address maps to an accessory, later publish requests never
remove or replace that entry. -/
lemma lookupAddr_persistent (accs : List ExtAccessory) :
    ∀ (s : ExtState) (addr : String) (b : ExtAccessory),
      lookupAddr addr s.published = some b →
        lookupAddr addr (publishExternalLoop s accs).1.published = some b := by
  induction accs with
  | nil =>
    intro s addr b h
    simpa [publishExternalLoop] using h
  | cons a rest ih =>
    intro s addr b h
    have hstep : lookupAddr addr (publishExternalStep s a).1.published = some b := by
      cases hl : lookupAddr (generateAddress a.UUID) (allocPort s).2.published with
      | some c =>
        simp only [publishExternalStep, hl]
        rw [allocPort_published]
        exact h
      | none =>
        simp only [publishExternalStep, hl]
        show lookupAddr addr ((generateAddress a.UUID, a) :: (allocPort s).2.published)
          = some b
        by_cases he : generateAddress a.UUID = addr
        · rw [allocPort_published, he] at hl
          rw [hl] at h
          exact absurd h (by simp)
        · show (if generateAddress a.UUID = addr then some a
              else lookupAddr addr (allocPort s).2.published) = some b
          rw [if_neg he, allocPort_published]
          exact h
    have hl2 : (publishExternalLoop s (a :: rest)).1
        = (publishExternalLoop (publishExternalStep s a).1 rest).1 := by
      simp [publishExternalLoop]
    rw [hl2]
    exact ih _ addr b hstep

/-- C5: the advertised address is a function of the accessory's stable
identifier alone (equal identifiers give equal addresses); a publish request
whose derived address is already in the published map leaves that map
unchanged and publishes nothing, and an entry once published survives every
later request of the run. -/
theorem address_deterministic_collision_safe :
    (∀ a b : ExtAccessory, a.UUID = b.UUID →
      generateAddress a.UUID = generateAddress b.UUID) ∧
      (∀ (s : ExtState) (a b : ExtAccessory),
        lookupAddr (generateAddress a.UUID) s.published = some b →
          (publishExternalStep s a).1.published = s.published ∧
            (publishExternalStep s a).2.1 = []) ∧
      (∀ (s : ExtState) (accs : List ExtAccessory) (addr : String) (b : ExtAccessory),
        lookupAddr addr s.published = some b →
          lookupAddr addr (publishExternalLoop s accs).1.published = some b) := by
  refine ⟨fun a b h => by rw [h], ?_, ?_⟩
  · intro s a b h
    have h2 : lookupAddr (generateAddress a.UUID) (allocPort s).2.published = some b := by
      rw [allocPort_published]
      exact h
    constructor
    · simp only [publishExternalStep, h2]
      exact allocPort_published s
    · simp only [publishExternalStep, h2]
  · intro s accs addr b h
    exact lookupAddr_persistent accs s addr b h

/-- Witness for C5: a request whose identifier collides with an
already-published address is rejected and the published map is untouched. -/
theorem address_deterministic_collision_safe_witness :
    lookupAddr (generateAddress "uuid-1")
        (⟨none, none, [(generateAddress "uuid-1", ⟨"uuid-0", "Old", 1⟩)]⟩ :
          ExtState).published
      = some ⟨"uuid-0", "Old", 1⟩ ∧
      ((publishExternalStep
            ⟨none, none, [(generateAddress "uuid-1", ⟨"uuid-0", "Old", 1⟩)]⟩
            ⟨"uuid-1", "New", 1⟩).1.published
          = (⟨none, none, [(generateAddress "uuid-1", ⟨"uuid-0", "Old", 1⟩)]⟩ :
              ExtState).published ∧
        (publishExternalStep
            ⟨none, none, [(generateAddress "uuid-1", ⟨"uuid-0", "Old", 1⟩)]⟩
            ⟨"uuid-1", "New", 1⟩).2.1 = []) := by
  have hl : lookupAddr (generateAddress "uuid-1")
      ([(generateAddress "uuid-1", (⟨"uuid-0", "Old", 1⟩ : ExtAccessory))])
      = some ⟨"uuid-0", "Old", 1⟩ := by
    simp only [lookupAddr]
    simp
  exact ⟨hl, address_deterministic_collision_safe.2.1
    ⟨none, none, [(generateAddress "uuid-1", ⟨"uuid-0", "Old", 1⟩)]⟩
    ⟨"uuid-1", "New", 1⟩ ⟨"uuid-0", "Old", 1⟩ hl⟩

end HoobsBridge
